import Mathlib

/-!
Verification of the `.idx` subtitle parser (`src/formats/idx.rs` of the
`subparse` crate): the part-based document model, the line-oriented parser,
the timestamp codec, the serializer, and the entry projector/updater.

Text is modelled as `List Char` (Rust `&str` / `String`); the final
`into_bytes` step of `to_data` is the UTF-8 encoding of the string, so equal
char sequences give equal byte sequences and vice versa.  Rust `i64` values
are modelled as `Int`; the claims only quantify over representable values,
where the two agree.  Helper functions that live in files of this repository
not present under `src/` (`src/formats/common.rs`, `src/timetypes.rs`) are
modelled from the spec and marked as such in their doc comments.
-/

deriving instance DecidableEq for Except

namespace Subparse

/-- Modelled from the spec (§6; `TimePoint` lives in `src/timetypes.rs`, not
under `src/`): a time point is a signed count of milliseconds (Rust stores an
`i64`, modelled as `Int`). -/
structure TimePoint where
  msecs : Int
deriving DecidableEq, Repr

/-- Modelled from the spec (§6): constructor from (hours, minutes, seconds,
milliseconds) components. -/
def TimePoint.from_components (hours mins secs msecs : Int) : TimePoint :=
  ⟨hours * 3600000 + mins * 60000 + secs * 1000 + msecs⟩

/-- Modelled from the spec (§6): the hours component accessor.  Rust `i64`
division truncates toward zero, which is `Int.tdiv`. -/
def TimePoint.hours (t : TimePoint) : Int := Int.tdiv t.msecs 3600000

/-- Modelled from the spec (§6): the already-reduced minutes component. -/
def TimePoint.mins_comp (t : TimePoint) : Int := Int.tmod (Int.tdiv t.msecs 60000) 60

/-- Modelled from the spec (§6): the already-reduced seconds component. -/
def TimePoint.secs_comp (t : TimePoint) : Int := Int.tmod (Int.tdiv t.msecs 1000) 60

/-- Modelled from the spec (§6): the already-reduced milliseconds component. -/
def TimePoint.msecs_comp (t : TimePoint) : Int := Int.tmod t.msecs 1000

instance : Neg TimePoint := ⟨fun t => ⟨-t.msecs⟩⟩

/-- Modelled from the spec (§6): a time duration in milliseconds. -/
structure TimeDelta where
  msecs : Int
deriving DecidableEq, Repr

/-- Modelled from the spec (§6): the constructor "N minutes". -/
def TimeDelta.from_mins (mins : Int) : TimeDelta := ⟨mins * 60 * 1000⟩

instance : HAdd TimePoint TimeDelta TimePoint := ⟨fun t d => ⟨t.msecs + d.msecs⟩⟩

/-- Modelled from the spec (§6): a time interval, a start/end pair of time
points (`TimeSpan` of `src/timetypes.rs`; the end field is named `stop` here
because `end` is reserved in Lean). -/
structure TimeSpan where
  start : TimePoint
  stop : TimePoint
deriving DecidableEq, Repr

def TimeSpan.new (start stop : TimePoint) : TimeSpan := ⟨start, stop⟩

/-- Modelled from the spec (§6): the generic subtitle entry wraps one time
interval. -/
structure SubtitleEntry where
  timespan : TimeSpan
deriving DecidableEq, Repr

def SubtitleEntry.from (ts : TimeSpan) : SubtitleEntry := ⟨ts⟩

/-- `IdxFilePart` from `src/formats/idx.rs`: filler text kept verbatim, or a
parsed timestamp. -/
inductive IdxFilePart where
  | Filler (text : List Char)
  | Timestamp (t : TimePoint)
deriving DecidableEq, Repr

/-- The filter-map closure of `get_subtitle_entries`: keeps `Timestamp`
values, drops `Filler` parts. -/
def part_to_timing : IdxFilePart → Option TimePoint
  | .Filler _ => none
  | .Timestamp t => some t

/-- Modelled from the spec (§4.4; `dedup_string_parts` lives in
`src/formats/common.rs`, not under `src/`): merges every run of consecutive
`Filler` parts into one by concatenating their text, leaving `Timestamp`
parts untouched and in place.  The pending run of filler text is carried in
the first argument. -/
def dedupCore : Option (List Char) → List IdxFilePart → List IdxFilePart
  | none, [] => []
  | some acc, [] => [.Filler acc]
  | none, .Filler a :: rest => dedupCore (some a) rest
  | none, .Timestamp t :: rest => .Timestamp t :: dedupCore none rest
  | some acc, .Filler b :: rest => dedupCore (some (acc ++ b)) rest
  | some acc, .Timestamp t :: rest => .Filler acc :: .Timestamp t :: dedupCore none rest

/-- Modelled from the spec (§4.4): the normalization pass over the assembled
part sequence. -/
def dedup_string_parts (v : List IdxFilePart) : List IdxFilePart := dedupCore none v

/-- `IdxFile` from `src/formats/idx.rs`: a reconstructable `.idx` file. -/
structure IdxFile where
  v : List IdxFilePart
deriving DecidableEq, Repr

/-- `IdxFile::new`: cleans up multiple fillers after another. -/
def IdxFile.new (v : List IdxFilePart) : IdxFile := ⟨dedup_string_parts v⟩

/-- `IdxFile::get_subtitle_entries`.  The Rust function always returns `Ok`,
so the `Result` wrapper is dropped here. -/
def IdxFile.get_subtitle_entries (f : IdxFile) : List SubtitleEntry :=
  let timings := f.v.filterMap part_to_timing
  match timings.getLast? with
  | some last_timing =>
      let next_timings := timings.drop 1 ++ [last_timing + TimeDelta.from_mins 1]
      (timings.zip next_timings).map (fun tt => SubtitleEntry.from (TimeSpan.new tt.1 tt.2))
  | none => []

/-- The loop of `IdxFile::update_subtitle_entries`.  The Rust loop reads
`ts[count - 1]` with `count : usize` starting at `0` and increments `count`
afterwards; `count - 1` underflows when `count = 0` (debug: overflow panic;
release: wraps to `2^64 - 1` and the index is out of bounds), and any
out-of-range index panics.  A panic is modelled by returning the vector state
reached so far with the flag `false`; a write happens only when the index
read succeeds, exactly as in Rust.  Returns (vector state, final count,
no-panic flag). -/
def update_loop : List IdxFilePart → List SubtitleEntry → Nat → (List IdxFilePart × Nat × Bool)
  | [], _, count => ([], count, true)
  | .Filler s :: rest, ts, count =>
      let r := update_loop rest ts count
      (.Filler s :: r.1, r.2)
  | .Timestamp t :: rest, ts, count =>
      match (if count = 0 then none else ts[count - 1]?) with
      | none => (.Timestamp t :: rest, count, false)
      | some e =>
          let r := update_loop rest ts (count + 1)
          (.Timestamp e.timespan.start :: r.1, r.2)

/-- `IdxFile::update_subtitle_entries`: runs the loop, then
`assert_eq!(count, ts.len())`.  Returns the final vector state together with
`true` when the call completes without panicking, `false` when it panics
(index underflow/out-of-bounds in the loop, or the final assert). -/
def IdxFile.update_subtitle_entries (f : IdxFile) (ts : List SubtitleEntry) : IdxFile × Bool :=
  let r := update_loop f.v ts 0
  (⟨r.1⟩, r.2.2 && (r.2.1 == ts.length))

/-- Decimal digits of a natural number, most significant first, prepended to
`acc`; fuel-based so that the kernel can evaluate it (the fuel never runs out
for `fuel > n`). -/
def natDigitsCore : Nat → Nat → List Char → List Char
  | 0, _, acc => acc
  | fuel + 1, n, acc =>
      if n < 10 then Char.ofNat (48 + n) :: acc
      else natDigitsCore fuel (n / 10) (Char.ofNat (48 + n % 10) :: acc)

/-- Decimal rendering of a natural number, as Rust's `{}` formatting does. -/
def natDigits (n : Nat) : List Char := natDigitsCore (n + 1) n []

/-- Decimal rendering of an `i64` value, as Rust's `{}` formatting does. -/
def intDec (n : Int) : List Char :=
  if n < 0 then '-' :: natDigits n.natAbs else natDigits n.toNat

/-- Recursive reference form of `natDigits`, convenient for induction: the
digits of `n / 10` followed by the last digit. -/
def natDigitsRec (n : Nat) : List Char :=
  if n < 10 then [Char.ofNat (48 + n)]
  else natDigitsRec (n / 10) ++ [Char.ofNat (48 + n % 10)]
termination_by n
decreasing_by exact Nat.div_lt_self (by omega) (by omega)

/-- Left-pad a char sequence with `'0'` to width `w`. -/
def zero_pad (w : Nat) (l : List Char) : List Char :=
  List.replicate (w - l.length) '0' ++ l

/-- Rust's `{:0w}` formatting: pad the decimal rendering on the left with
`'0'` up to width `w`; for a negative number the sign stays in front of the
padding and counts toward the width. -/
def fmt_pad (w : Nat) (n : Int) : List Char :=
  if n < 0 then
    let d := natDigits n.natAbs
    '-' :: (List.replicate (w - 1 - d.length) '0' ++ d)
  else
    let d := natDigits n.toNat
    List.replicate (w - d.length) '0' ++ d

/-- The closure `fn_timing_to_string` of `IdxFile::to_data`: renders a timing
as `"{}{:02}:{:02}:{:02}:{:03}"` with a `-` sign for a negative point and the
component fields of the absolute value. -/
def fn_timing_to_string (t : TimePoint) : List Char :=
  let p := if t.msecs < 0 then -t else t
  (if t.msecs < 0 then ['-'] else [])
    ++ fmt_pad 2 p.hours
    ++ ':' :: fmt_pad 2 p.mins_comp
    ++ ':' :: fmt_pad 2 p.secs_comp
    ++ ':' :: fmt_pad 3 p.msecs_comp

/-- The closure `fn_file_part_to_string` of `IdxFile::to_data`. -/
def fn_file_part_to_string : IdxFilePart → List Char
  | .Filler t => t
  | .Timestamp t => fn_timing_to_string t

/-- Concatenation of the rendered parts (`iter().map(..).collect::<String>()`
in `IdxFile::to_data`). -/
def render : List IdxFilePart → List Char
  | [] => []
  | p :: rest => fn_file_part_to_string p ++ render rest

/-- `IdxFile::to_data`.  The Rust function wraps the result in `Ok` and
UTF-8-encodes it (`into_bytes`); both steps are lossless, so the char
sequence is returned directly. -/
def IdxFile.to_data (f : IdxFile) : List Char := render f.v

/-- The `.idx`-parser error kind from `src/formats/idx.rs`: a line-scoped
parse error carrying the 0-based line number and a diagnostic message. -/
inductive ErrorKind where
  | IdxLineParseError (line_num : Nat) (msg : List Char)
deriving DecidableEq, Repr

/-- Rust's `char::is_whitespace` (the Unicode `White_Space` property), used
by `str::trim_start`. -/
def is_whitespace (c : Char) : Bool :=
  c == ' ' || c == '\t' || c == '\n' || c == '\u000B' || c == '\u000C' || c == '\r'
    || c.toNat == 0x85 || c.toNat == 0xA0 || c.toNat == 0x1680
    || (0x2000 ≤ c.toNat && c.toNat ≤ 0x200A)
    || c.toNat == 0x2028 || c.toNat == 0x2029 || c.toNat == 0x202F
    || c.toNat == 0x205F || c.toNat == 0x3000

/-- Rust's `str::trim_start`: drop leading whitespace. -/
def trim_start (s : List Char) : List Char := s.dropWhile is_whitespace

/-- Rust's `str::starts_with` on char sequences. -/
def starts_with : List Char → List Char → Bool
  | [], _ => true
  | _ :: _, [] => false
  | p :: ps, c :: cs => p == c && starts_with ps cs

/-- The literal marker token of a timestamp declaration line. -/
def marker : List Char := "timestamp:".toList

/-- Modelled from the spec (§4.3, §9; `ws()` lives in
`src/formats/common.rs`, not under `src/`): the whitespace character class of
the line grammar — space or tab. -/
def ws_char (c : Char) : Bool := c == ' ' || c == '\t'

/-- The digit-or-colon character class of the timestamp token
(`or(digit(), token(':'))`); `digit()` matches an ASCII digit. -/
def digit_colon (c : Char) : Bool := c.isDigit || c == ':'

/-- Longest-match splitting: the longest leading run of characters satisfying
`p`, and the remainder (the semantics of combine's greedy `many`). -/
def span (p : Char → Bool) : List Char → List Char × List Char
  | [] => ([], [])
  | c :: cs =>
      if p c then
        let r := span p cs
        (c :: r.1, r.2)
      else ([], c :: cs)

/-- Value of a run of ASCII digits, most significant first (Rust's
`str::parse::<i64>` on a digit string). -/
def digitsToNat (l : List Char) : Nat := l.foldl (fun a c => a * 10 + (c.toNat - 48)) 0

/-- Modelled from the spec (§4.1, §4.3; `number_i64` lives in
`src/formats/common.rs`, not under `src/`): parses one integer field — an
optional leading `-` followed by a longest nonempty run of ASCII digits —
returning its value and the unconsumed remainder, or `none` when no digit
run is found. -/
def number_i64 (s : List Char) : Option (Int × List Char) :=
  match s with
  | [] => none
  | c :: cs =>
      if c = '-' then
        let r := span Char.isDigit cs
        if r.1 = [] then none else some (-(digitsToNat r.1 : Int), r.2)
      else
        let r := span Char.isDigit (c :: cs)
        if r.1 = [] then none else some ((digitsToNat r.1 : Int), r.2)

/-- An integer field of the timestamp grammar, as `number_i64` accepts it:
an optional leading `-` followed by a nonempty run of ASCII digits, together
with its parsed value. -/
def int_field (w : List Char) (v : Int) : Prop :=
  (w ≠ [] ∧ (∀ c ∈ w, c.isDigit = true) ∧ v = (digitsToNat w : Int))
    ∨ (∃ d, w = '-' :: d ∧ d ≠ [] ∧ (∀ c ∈ d, c.isDigit = true)
        ∧ v = -(digitsToNat d : Int))

/-- The `token(':')` separator of the timestamp grammar: consumes exactly
one `:` and returns the remainder, failing otherwise. -/
def expect_colon : List Char → Option (List Char)
  | c :: rest => if c = ':' then some rest else none
  | [] => none

/-- Modelled from the spec (§7; `parse_error_to_string` lives in
`src/formats/common.rs`, not under `src/`): diagnostic text for a missing
integer field. -/
def err_msg_number : List Char := "expected integer field".toList

/-- Modelled from the spec (§7): diagnostic text for a missing `:` field
separator. -/
def err_msg_colon : List Char := "expected colon separator".toList

/-- Modelled from the spec (§7): diagnostic text for trailing unconsumed
content where end of input was required. -/
def err_msg_eof : List Char := "expected end of input".toList

/-- Modelled from the spec (§7): diagnostic text for a line that passes the
`timestamp:` pre-check but fails the literal marker match of the grammar. -/
def err_msg_marker : List Char := "expected timestamp marker".toList

/-- The timestamp grammar of `IdxFile::parse_timestamp`, without the line
number: exactly four colon-separated integer fields followed by end of
input, combined through `TimePoint::from_components`.  The error is the
diagnostic message. -/
def parse_timestamp_core (s : List Char) : Except (List Char) TimePoint :=
  match number_i64 s with
  | none => .error err_msg_number
  | some (hours, r1) =>
    match expect_colon r1 with
    | none => .error err_msg_colon
    | some r2 =>
      match number_i64 r2 with
      | none => .error err_msg_number
      | some (mins, r3) =>
        match expect_colon r3 with
        | none => .error err_msg_colon
        | some r4 =>
          match number_i64 r4 with
          | none => .error err_msg_number
          | some (secs, r5) =>
            match expect_colon r5 with
            | none => .error err_msg_colon
            | some r6 =>
              match number_i64 r6 with
              | none => .error err_msg_number
              | some (msecs, r7) =>
                match r7 with
                | [] => .ok (TimePoint.from_components hours mins secs msecs)
                | _ => .error err_msg_eof

/-- `IdxFile::parse_timestamp`: parse an `.idx` timestamp like
`00:41:36:961`; a failure is wrapped into a line error with the line
number. -/
def parse_timestamp (line_num : Nat) (s : List Char) : Except ErrorKind TimePoint :=
  (parse_timestamp_core s).mapError (fun msg => .IdxLineParseError line_num msg)

/-- `IdxFile::parse_line`: a line not starting (after leading whitespace)
with `timestamp:` is one `Filler`; otherwise the line decomposes as
whitespace, the literal marker, whitespace, a maximal digit/colon run (the
timestamp token), and the arbitrary remainder, with `eof` trivially
satisfied because `many(try(any()))` consumes everything. -/
def parse_line (line_num : Nat) (s : List Char) : Except ErrorKind (List IdxFilePart) :=
  if starts_with marker (trim_start s) = false then .ok [.Filler s]
  else
    let ws1 := (span ws_char s).1
    let r1 := (span ws_char s).2
    if starts_with marker r1 then
      let r2 := r1.drop marker.length
      let ws2 := (span ws_char r2).1
      let r3 := (span ws_char r2).2
      let timestamp_str := (span digit_colon r3).1
      let s2 := (span digit_colon r3).2
      match parse_timestamp line_num timestamp_str with
      | .error e => .error e
      | .ok t => .ok [.Filler ws1, .Filler marker, .Filler ws2, .Timestamp t, .Filler s2]
    else .error (.IdxLineParseError line_num err_msg_marker)

/-- Modelled from the spec (§4.2; `split_bom` lives in
`src/formats/common.rs`, not under `src/`): strips and separately retains a
leading UTF-8 byte-order mark. -/
def split_bom (s : List Char) : List Char × List Char :=
  match s with
  | c :: rest => if c.toNat = 0xFEFF then ([c], rest) else ([], s)
  | [] => ([], [])

/-- Modelled from the spec (§4.2; `get_lines_non_destructive` lives in
`src/formats/common.rs`, not under `src/`): worker that splits text into
(content, terminator) pairs, the terminator being the original line-ending
(`\n`, `\r\n`, or empty at end of input); the pending line content is
accumulated in reverse in `acc`.  No byte is discarded. -/
def get_lines_go : List Char → List Char → List (List Char × List Char)
  | [], acc => [(acc.reverse, [])]
  | '\r' :: '\n' :: rest, acc => (acc.reverse, ['\r', '\n']) :: get_lines_go rest []
  | '\n' :: rest, acc => (acc.reverse, ['\n']) :: get_lines_go rest []
  | c :: rest, acc => get_lines_go rest (c :: acc)

/-- Modelled from the spec (§4.2): non-destructive line splitting. -/
def get_lines_non_destructive (s : List Char) : List (List Char × List Char) :=
  get_lines_go s []

/-- The loop of `IdxFile::parse_inner`: parse each numbered line, append its
parts and then a `Filler` holding the line terminator; the first line error
aborts the whole parse. -/
def parse_lines_loop : Nat → List (List Char × List Char) → Except ErrorKind (List IdxFilePart)
  | _, [] => .ok []
  | line_num, (line, newl) :: rest =>
      match parse_line line_num line with
      | .error e => .error e
      | .ok file_parts =>
          match parse_lines_loop (line_num + 1) rest with
          | .error e => .error e
          | .ok tail => .ok (file_parts ++ .Filler newl :: tail)

/-- `IdxFile::parse_inner`: BOM filler, then the parts of every line, then
normalization through `IdxFile::new`. -/
def parse_inner (i : List Char) : Except ErrorKind IdxFile :=
  let bom := (split_bom i).1
  let s := (split_bom i).2
  match parse_lines_loop 0 (get_lines_non_destructive s) with
  | .error e => .error e
  | .ok parts => .ok (IdxFile.new (.Filler bom :: parts))

/-- `IdxFile::parse`: the public entry point only wraps `parse_inner`'s
error with a crate-level parsing context, which carries no further data the
claims mention, so it is the identity here. -/
def IdxFile.parse (s : List Char) : Except ErrorKind IdxFile := parse_inner s

/-- Concatenation of (content, terminator) line pairs. -/
def join_pairs : List (List Char × List Char) → List Char
  | [] => []
  | p :: rest => p.1 ++ p.2 ++ join_pairs rest

/-- A line is canonical when either it is not a timestamp declaration, or
its timestamp token (the maximal digit/colon run) is exactly the text the
serializer would print for the parsed time point.  Round-tripping can only
reproduce such lines, since the token is re-rendered from the parsed
value. -/
def line_canonical (s : List Char) : Bool :=
  if starts_with marker (trim_start s) = false then true
  else
    let r1 := (span ws_char s).2
    if starts_with marker r1 then
      let r3 := (span ws_char (r1.drop marker.length)).2
      let timestamp_str := (span digit_colon r3).1
      match parse_timestamp_core timestamp_str with
      | .ok t => fn_timing_to_string t == timestamp_str
      | .error _ => true
    else true

/-- No two adjacent parts are both `Filler`. -/
def no_adjacent_fillers : List IdxFilePart → Bool
  | .Filler _ :: .Filler _ :: _ => false
  | _ :: rest => no_adjacent_fillers rest
  | [] => true

/-- Frame relation for the update path: positionally, a `Filler` stays a
`Filler` with identical text and a `Timestamp` stays a `Timestamp` (its
value may change); nothing is added, removed, or reordered. -/
def part_frame : IdxFilePart → IdxFilePart → Prop
  | .Filler s, .Filler s' => s = s'
  | .Timestamp _, .Timestamp _ => True
  | _, _ => False

theorem natDigitsCore_eq (fuel : Nat) : ∀ (n : Nat) (acc : List Char), n < fuel →
    natDigitsCore fuel n acc = natDigitsRec n ++ acc := by
  induction fuel with
  | zero => omega
  | succ fuel ih =>
    intro n acc h
    by_cases h10 : n < 10
    · rw [natDigitsRec]
      simp [natDigitsCore, h10]
    · have hdiv : n / 10 < n := Nat.div_lt_self (by omega) (by omega)
      rw [natDigitsCore, if_neg h10, ih (n / 10) _ (by omega)]
      conv_rhs => rw [natDigitsRec]
      rw [if_neg h10, List.append_assoc]
      rfl

theorem natDigits_eq (n : Nat) : natDigits n = natDigitsRec n := by
  have h := natDigitsCore_eq (n + 1) n [] (by omega)
  simpa [natDigits] using h

theorem digitChar_toNat (d : Nat) (h : d < 10) : (Char.ofNat (48 + d)).toNat = 48 + d := by
  interval_cases d <;> decide

theorem digitChar_isDigit (d : Nat) (h : d < 10) : (Char.ofNat (48 + d)).isDigit = true := by
  interval_cases d <;> decide

theorem natDigits_all_digits (n : Nat) : ∀ c ∈ natDigits n, c.isDigit = true := by
  rw [natDigits_eq]
  induction n using Nat.strong_induction_on with
  | _ n ih =>
    intro c hc
    rw [natDigitsRec] at hc
    by_cases h10 : n < 10
    · rw [if_pos h10] at hc
      simp only [List.mem_singleton] at hc
      subst hc
      exact digitChar_isDigit n h10
    · rw [if_neg h10] at hc
      rcases List.mem_append.mp hc with h | h
      · exact ih (n / 10) (Nat.div_lt_self (by omega) (by omega)) c h
      · simp only [List.mem_singleton] at h
        subst h
        exact digitChar_isDigit _ (Nat.mod_lt n (by omega))

theorem natDigits_ne_nil (n : Nat) : natDigits n ≠ [] := by
  rw [natDigits_eq, natDigitsRec]
  split <;> simp

theorem digitsToNat_append_last (l : List Char) (c : Char) :
    digitsToNat (l ++ [c]) = digitsToNat l * 10 + (c.toNat - 48) := by
  simp [digitsToNat, List.foldl_append]

theorem digitsToNat_natDigits (n : Nat) : digitsToNat (natDigits n) = n := by
  rw [natDigits_eq]
  induction n using Nat.strong_induction_on with
  | _ n ih =>
    rw [natDigitsRec]
    by_cases h10 : n < 10
    · rw [if_pos h10]
      simp [digitsToNat, digitChar_toNat n h10]
    · rw [if_neg h10, digitsToNat_append_last,
        ih (n / 10) (Nat.div_lt_self (by omega) (by omega)),
        digitChar_toNat _ (Nat.mod_lt n (by omega))]
      omega

theorem digitsToNat_replicate_zero (k : Nat) (l : List Char) :
    digitsToNat (List.replicate k '0' ++ l) = digitsToNat l := by
  induction k with
  | zero => simp
  | succ k ih =>
    rw [List.replicate_succ, List.cons_append]
    simpa [digitsToNat, show '0'.toNat = 48 from rfl] using ih

theorem digitsToNat_zero_pad (w : Nat) (l : List Char) :
    digitsToNat (zero_pad w l) = digitsToNat l :=
  digitsToNat_replicate_zero _ _

theorem zero_pad_all_digits (w : Nat) (l : List Char) (h : ∀ c ∈ l, c.isDigit = true) :
    ∀ c ∈ zero_pad w l, c.isDigit = true := by
  intro c hc
  rcases List.mem_append.mp hc with h0 | hl
  · have := List.eq_of_mem_replicate h0
    subst this
    decide
  · exact h c hl

theorem zero_pad_ne_nil (w : Nat) (l : List Char) (h : l ≠ []) : zero_pad w l ≠ [] := by
  simp [zero_pad, h]

theorem zero_pad_length (w : Nat) (l : List Char) :
    (zero_pad w l).length = max w l.length := by
  simp [zero_pad]
  omega

theorem span_append (p : Char → Bool) (l : List Char) :
    (span p l).1 ++ (span p l).2 = l := by
  induction l with
  | nil => rfl
  | cons c cs ih =>
    by_cases h : p c
    · simp [span, h, ih]
    · simp [span, h]

theorem span_takeall (p : Char → Bool) (l : List Char) (h : ∀ c ∈ l, p c = true) :
    span p l = (l, []) := by
  induction l with
  | nil => rfl
  | cons c cs ih =>
    have hc := h c (by simp)
    simp [span, hc, ih fun c hmem => h c (by simp [hmem])]

theorem span_stop (p : Char → Bool) (l : List Char) (x : Char) (r : List Char)
    (hall : ∀ c ∈ l, p c = true) (hx : p x = false) :
    span p (l ++ x :: r) = (l, x :: r) := by
  induction l with
  | nil => simp [span, hx]
  | cons c cs ih =>
    have hc := hall c (by simp)
    simp [span, hc, ih fun c hmem => hall c (by simp [hmem])]

theorem isDigit_ne_minus (c : Char) (h : c.isDigit = true) : ¬(c = '-') := by
  intro he
  subst he
  exact absurd h (by decide)

theorem number_i64_stop (ds r : List Char) (hne : ds ≠ [])
    (hall : ∀ c ∈ ds, c.isDigit = true) :
    number_i64 (ds ++ ':' :: r) = some ((digitsToNat ds : Int), ':' :: r) := by
  match ds, hne with
  | c :: cs, _ =>
    have hc := hall c (by simp)
    have hspan := span_stop Char.isDigit (c :: cs) ':' r hall (by decide)
    simp only [List.cons_append] at hspan ⊢
    simp [number_i64, isDigit_ne_minus c hc, hspan]

theorem number_i64_all (ds : List Char) (hne : ds ≠ [])
    (hall : ∀ c ∈ ds, c.isDigit = true) :
    number_i64 ds = some ((digitsToNat ds : Int), []) := by
  match ds, hne with
  | c :: cs, _ =>
    have hc := hall c (by simp)
    have hspan := span_takeall Char.isDigit (c :: cs) hall
    simp [number_i64, isDigit_ne_minus c hc, hspan]

theorem hours_coe (m : Nat) : TimePoint.hours ⟨(m : Int)⟩ = ((m / 3600000 : Nat) : Int) := rfl

theorem mins_comp_coe (m : Nat) :
    TimePoint.mins_comp ⟨(m : Int)⟩ = ((m / 60000 % 60 : Nat) : Int) := rfl

theorem secs_comp_coe (m : Nat) :
    TimePoint.secs_comp ⟨(m : Int)⟩ = ((m / 1000 % 60 : Nat) : Int) := rfl

theorem msecs_comp_coe (m : Nat) :
    TimePoint.msecs_comp ⟨(m : Int)⟩ = ((m % 1000 : Nat) : Int) := rfl

theorem fmt_pad_coe (w : Nat) (n : Nat) : fmt_pad w (n : Int) = zero_pad w (natDigits n) := by
  have h : ¬((n : Int) < 0) := by omega
  simp [fmt_pad, zero_pad, h]

theorem number_pad (w : Nat) (a : Nat) (r : List Char) :
    number_i64 (zero_pad w (natDigits a) ++ ':' :: r) = some ((a : Int), ':' :: r) := by
  rw [number_i64_stop _ _
      (zero_pad_ne_nil _ _ (natDigits_ne_nil _))
      (zero_pad_all_digits _ _ (natDigits_all_digits _)),
    digitsToNat_zero_pad, digitsToNat_natDigits]

theorem number_pad_end (w : Nat) (a : Nat) :
    number_i64 (zero_pad w (natDigits a)) = some ((a : Int), []) := by
  rw [number_i64_all _
      (zero_pad_ne_nil _ _ (natDigits_ne_nil _))
      (zero_pad_all_digits _ _ (natDigits_all_digits _)),
    digitsToNat_zero_pad, digitsToNat_natDigits]

theorem encode_coe (m : Nat) :
    fn_timing_to_string ⟨(m : Int)⟩ =
      zero_pad 2 (natDigits (m / 3600000))
        ++ ':' :: (zero_pad 2 (natDigits (m / 60000 % 60))
        ++ ':' :: (zero_pad 2 (natDigits (m / 1000 % 60))
        ++ ':' :: zero_pad 3 (natDigits (m % 1000)))) := by
  have h0 : ¬((⟨(m : Int)⟩ : TimePoint).msecs < 0) := by
    simp only [TimePoint.msecs]
    omega
  rw [fn_timing_to_string]
  simp only [h0, if_false, hours_coe, mins_comp_coe, secs_comp_coe, msecs_comp_coe,
    fmt_pad_coe, List.nil_append, List.cons_append, List.append_assoc]

theorem expect_colon_cons (r : List Char) : expect_colon (':' :: r) = some r := rfl

theorem expect_colon_some (r r' : List Char) (h : expect_colon r = some r') :
    r = ':' :: r' := by
  cases r with
  | nil => simp [expect_colon] at h
  | cons c rest =>
    by_cases hc : c = ':'
    · subst hc
      rw [expect_colon_cons] at h
      simp only [Option.some.injEq] at h
      rw [h]
    · rw [expect_colon, if_neg hc] at h
      simp at h

theorem decode_encode_nat (m : Nat) :
    parse_timestamp_core (fn_timing_to_string ⟨(m : Int)⟩) = .ok ⟨(m : Int)⟩ := by
  rw [encode_coe]
  simp only [parse_timestamp_core, number_pad, number_pad_end, expect_colon_cons]
  simp only [TimePoint.from_components, Except.ok.injEq, TimePoint.mk.injEq]
  push_cast
  omega

theorem render_append (a b : List IdxFilePart) : render (a ++ b) = render a ++ render b := by
  induction a with
  | nil => rfl
  | cons p rest ih => simp [render, ih]

theorem dedupCore_render (v : List IdxFilePart) :
    render (dedupCore none v) = render v ∧
      ∀ acc, render (dedupCore (some acc) v) = acc ++ render v := by
  induction v with
  | nil => simp [dedupCore, render, fn_file_part_to_string]
  | cons p rest ih =>
    cases p with
    | Filler a =>
      constructor
      · rw [show dedupCore none (.Filler a :: rest) = dedupCore (some a) rest from rfl, ih.2 a]
        simp [render, fn_file_part_to_string]
      · intro acc
        rw [show dedupCore (some acc) (.Filler a :: rest) = dedupCore (some (acc ++ a)) rest
            from rfl, ih.2 (acc ++ a)]
        simp [render, fn_file_part_to_string]
    | Timestamp t =>
      constructor
      · rw [show dedupCore none (.Timestamp t :: rest) = .Timestamp t :: dedupCore none rest
            from rfl]
        simp [render, ih.1]
      · intro acc
        rw [show dedupCore (some acc) (.Timestamp t :: rest)
            = .Filler acc :: .Timestamp t :: dedupCore none rest from rfl]
        simp [render, fn_file_part_to_string, ih.1]

theorem get_lines_go_join (s : List Char) (acc : List Char) :
    join_pairs (get_lines_go s acc) = acc.reverse ++ s := by
  induction s, acc using get_lines_go.induct with
  | case1 acc => simp [get_lines_go, join_pairs]
  | case2 rest acc ih => simp [get_lines_go, join_pairs, ih]
  | case3 rest acc ih => simp [get_lines_go, join_pairs, ih]
  | case4 c rest acc h1 h2 ih => simp [get_lines_go, join_pairs, ih]

theorem split_bom_append (i : List Char) : (split_bom i).1 ++ (split_bom i).2 = i := by
  cases i with
  | nil => rfl
  | cons c rest =>
    by_cases h : c.toNat = 0xFEFF <;> simp [split_bom, h]

theorem starts_with_drop (p : List Char) : ∀ (l : List Char), starts_with p l = true →
    p ++ l.drop p.length = l := by
  induction p with
  | nil => intro l _; simp
  | cons a as ih =>
    intro l h
    cases l with
    | nil => simp [starts_with] at h
    | cons b bs =>
      simp only [starts_with, Bool.and_eq_true, beq_iff_eq] at h
      obtain ⟨h1, h2⟩ := h
      subst h1
      simpa using ih bs h2

theorem parse_timestamp_ok (ln : Nat) (s : List Char) (t : TimePoint) :
    parse_timestamp ln s = .ok t ↔ parse_timestamp_core s = .ok t := by
  cases h : parse_timestamp_core s <;> simp [parse_timestamp, Except.mapError, h]

theorem parse_line_render (ln : Nat) (s : List Char) (parts : List IdxFilePart)
    (hok : parse_line ln s = .ok parts) (hcan : line_canonical s = true) :
    render parts = s := by
  by_cases hg : starts_with marker (trim_start s) = false
  · rw [parse_line, if_pos hg] at hok
    simp only [Except.ok.injEq] at hok
    subst hok
    simp [render, fn_file_part_to_string]
  · simp only [parse_line] at hok
    rw [if_neg hg] at hok
    simp only [line_canonical] at hcan
    rw [if_neg hg] at hcan
    by_cases hm : starts_with marker (span ws_char s).2 = true
    · rw [if_pos hm] at hok hcan
      cases hts : parse_timestamp ln (span digit_colon
          (span ws_char ((span ws_char s).2.drop marker.length)).2).1 with
      | error e => rw [hts] at hok; simp at hok
      | ok t =>
        rw [hts] at hok
        simp only [Except.ok.injEq] at hok
        subst hok
        rw [(parse_timestamp_ok ln _ t).mp hts] at hcan
        have henc : fn_timing_to_string t
            = (span digit_colon (span ws_char ((span ws_char s).2.drop marker.length)).2).1 := by
          simpa using hcan
        simp only [render, fn_file_part_to_string, List.append_nil, henc]
        rw [span_append digit_colon, span_append ws_char, starts_with_drop marker _ hm,
          span_append ws_char]
    · rw [if_neg hm] at hok
      simp at hok

theorem parse_lines_loop_render :
    ∀ (lines : List (List Char × List Char)) (n : Nat) (parts : List IdxFilePart),
    parse_lines_loop n lines = .ok parts →
    (∀ p ∈ lines, line_canonical p.1 = true) →
    render parts = join_pairs lines := by
  intro lines
  induction lines with
  | nil =>
    intro n parts h _
    simp only [parse_lines_loop, Except.ok.injEq] at h
    subst h
    rfl
  | cons pr rest ih =>
    intro n parts h hcan
    obtain ⟨line, newl⟩ := pr
    simp only [parse_lines_loop] at h
    cases hl : parse_line n line with
    | error e => rw [hl] at h; simp at h
    | ok fp =>
      rw [hl] at h
      cases hr : parse_lines_loop (n + 1) rest with
      | error e => rw [hr] at h; simp at h
      | ok tail =>
        rw [hr] at h
        simp only [Except.ok.injEq] at h
        subst h
        rw [render_append]
        rw [parse_line_render n line fp hl (hcan (line, newl) (by simp))]
        simp only [render, fn_file_part_to_string]
        rw [ih (n + 1) tail hr (fun p hp => hcan p (by simp [hp]))]
        simp [join_pairs]

theorem zip_getElem? {α β : Type} (l : List α) (l' : List β) (i : Nat) (a : α) (b : β)
    (h1 : l[i]? = some a) (h2 : l'[i]? = some b) : (l.zip l')[i]? = some (a, b) := by
  induction l generalizing l' i with
  | nil => simp at h1
  | cons x xs ih =>
    cases l' with
    | nil => simp at h2
    | cons y ys =>
      cases i with
      | zero => simp_all [List.zip_cons_cons]
      | succ n =>
        simp only [List.getElem?_cons_succ] at h1 h2
        simpa [List.zip_cons_cons] using ih ys n h1 h2

theorem getElem?_some_lt {α : Type} (l : List α) (i : Nat) (a : α)
    (h : l[i]? = some a) : i < l.length := by
  by_contra hn
  push_neg at hn
  rw [List.getElem?_eq_none hn] at h
  exact Option.noConfusion h

theorem drop_one_getElem? {α : Type} (l : List α) (i : Nat) : (l.drop 1)[i]? = l[i + 1]? := by
  cases l <;> simp

theorem getLast?_cons_some {α : Type} (a : α) (l : List α) :
    ∃ b, (a :: l).getLast? = some b := by
  induction l generalizing a with
  | nil => exact ⟨a, rfl⟩
  | cons c cs ih => simpa [List.getLast?_cons_cons] using ih c

theorem getLast?_none_nil {α : Type} (l : List α) (h : l.getLast? = none) : l = [] := by
  cases l with
  | nil => rfl
  | cons a as =>
    obtain ⟨b, hb⟩ := getLast?_cons_some a as
    rw [hb] at h
    exact Option.noConfusion h

theorem getElem?_last {α : Type} (l : List α) :
    ∀ (i : Nat) (a : α), l[i]? = some a → i + 1 = l.length → l.getLast? = some a := by
  induction l with
  | nil => intro i a h _; simp at h
  | cons x xs ih =>
    intro i a h hi
    cases xs with
    | nil =>
      have hi0 : i = 0 := by simpa using hi
      subst hi0
      simpa using h
    | cons y ys =>
      cases i with
      | zero => simp at hi
      | succ n =>
        simp only [List.getElem?_cons_succ] at h
        rw [List.getLast?_cons_cons]
        exact ih n a h (by simpa using hi)

theorem noAdj_cons_timestamp (t : TimePoint) (l : List IdxFilePart) :
    no_adjacent_fillers (.Timestamp t :: l) = no_adjacent_fillers l := by
  cases l with
  | nil => rfl
  | cons q qs => cases q <;> rfl

theorem noAdj_filler_timestamp (a : List Char) (t : TimePoint) (l : List IdxFilePart) :
    no_adjacent_fillers (.Filler a :: .Timestamp t :: l)
      = no_adjacent_fillers (.Timestamp t :: l) := rfl

theorem dedupCore_noAdj (v : List IdxFilePart) :
    no_adjacent_fillers (dedupCore none v) = true ∧
      ∀ acc, no_adjacent_fillers (dedupCore (some acc) v) = true := by
  induction v with
  | nil => exact ⟨rfl, fun acc => rfl⟩
  | cons p rest ih =>
    cases p with
    | Filler a =>
      exact ⟨ih.2 a, fun acc => ih.2 (acc ++ a)⟩
    | Timestamp t =>
      constructor
      · rw [show dedupCore none (.Timestamp t :: rest) = .Timestamp t :: dedupCore none rest
            from rfl, noAdj_cons_timestamp]
        exact ih.1
      · intro acc
        rw [show dedupCore (some acc) (.Timestamp t :: rest)
              = .Filler acc :: .Timestamp t :: dedupCore none rest from rfl,
          noAdj_filler_timestamp, noAdj_cons_timestamp]
        exact ih.1

theorem dedupCore_timings (v : List IdxFilePart) :
    (dedupCore none v).filterMap part_to_timing = v.filterMap part_to_timing ∧
      ∀ acc, (dedupCore (some acc) v).filterMap part_to_timing
        = v.filterMap part_to_timing := by
  induction v with
  | nil => exact ⟨rfl, fun acc => by simp [dedupCore, part_to_timing]⟩
  | cons p rest ih =>
    cases p with
    | Filler a =>
      constructor
      · rw [show dedupCore none (.Filler a :: rest) = dedupCore (some a) rest from rfl, ih.2 a]
        simp [part_to_timing]
      · intro acc
        rw [show dedupCore (some acc) (.Filler a :: rest)
              = dedupCore (some (acc ++ a)) rest from rfl, ih.2 (acc ++ a)]
        simp [part_to_timing]
    | Timestamp t =>
      constructor
      · rw [show dedupCore none (.Timestamp t :: rest) = .Timestamp t :: dedupCore none rest
            from rfl]
        simp [part_to_timing, ih.1]
      · intro acc
        rw [show dedupCore (some acc) (.Timestamp t :: rest)
              = .Filler acc :: .Timestamp t :: dedupCore none rest from rfl]
        simp [part_to_timing, ih.1]

theorem part_frame_refl_list (l : List IdxFilePart) : List.Forall₂ part_frame l l := by
  induction l with
  | nil => exact .nil
  | cons p rest ih =>
    refine .cons ?_ ih
    cases p <;> simp [part_frame]

theorem update_loop_frame (v : List IdxFilePart) :
    ∀ (ts : List SubtitleEntry) (count : Nat),
      List.Forall₂ part_frame v (update_loop v ts count).1 := by
  induction v with
  | nil => intro ts count; exact .nil
  | cons p rest ih =>
    intro ts count
    cases p with
    | Filler s =>
      simp only [update_loop]
      exact .cons rfl (ih ts count)
    | Timestamp t =>
      simp only [update_loop]
      cases hidx : (if count = 0 then none else ts[count - 1]?) with
      | none => exact part_frame_refl_list _
      | some e => exact .cons trivial (ih ts (count + 1))

theorem natDigits_len1 (n : Nat) (h : n < 10) : (natDigits n).length = 1 := by
  rw [natDigits_eq, natDigitsRec, if_pos h]
  rfl

theorem natDigits_len_le2 (n : Nat) (h : n < 100) : (natDigits n).length ≤ 2 := by
  by_cases h10 : n < 10
  · rw [natDigits_len1 n h10]; omega
  · rw [natDigits_eq, natDigitsRec, if_neg h10]
    have : n / 10 < 10 := by omega
    rw [List.length_append, ← natDigits_eq, natDigits_len1 _ this]
    rfl

theorem natDigits_len_le3 (n : Nat) (h : n < 1000) : (natDigits n).length ≤ 3 := by
  by_cases h10 : n < 10
  · rw [natDigits_len1 n h10]; omega
  · rw [natDigits_eq, natDigitsRec, if_neg h10]
    have : n / 10 < 100 := by omega
    rw [List.length_append, ← natDigits_eq]
    have := natDigits_len_le2 _ this
    simp only [List.length_singleton]
    omega

theorem int_toNat_coe (n : Nat) : ((n : Int)).toNat = n := rfl

theorem span_fst_all (p : Char → Bool) (l : List Char) :
    ∀ c ∈ (span p l).1, p c = true := by
  induction l with
  | nil => simp [span]
  | cons c cs ih =>
    by_cases hc : p c
    · intro x hx
      simp only [span, hc, if_true, List.mem_cons] at hx
      rcases hx with hx | hx
      · rw [hx]; exact hc
      · exact ih x hx
    · simp [span, hc]

theorem number_i64_some (s : List Char) (v : Int) (r : List Char)
    (h : number_i64 s = some (v, r)) : ∃ w, s = w ++ r ∧ int_field w v := by
  cases s with
  | nil => simp [number_i64] at h
  | cons c cs =>
    by_cases hm : c = '-'
    · subst hm
      simp only [number_i64, if_true] at h
      by_cases he : (span Char.isDigit cs).1 = []
      · rw [if_pos he] at h; simp at h
      · rw [if_neg he] at h
        simp only [Option.some.injEq, Prod.mk.injEq] at h
        obtain ⟨hv, hr⟩ := h
        refine ⟨'-' :: (span Char.isDigit cs).1, ?_,
          Or.inr ⟨_, rfl, he, span_fst_all _ _, hv.symm⟩⟩
        rw [List.cons_append, ← hr]
        rw [span_append Char.isDigit cs]
    · simp only [number_i64, if_neg hm] at h
      by_cases he : (span Char.isDigit (c :: cs)).1 = []
      · rw [if_pos he] at h; simp at h
      · rw [if_neg he] at h
        simp only [Option.some.injEq, Prod.mk.injEq] at h
        obtain ⟨hv, hr⟩ := h
        refine ⟨(span Char.isDigit (c :: cs)).1, ?_,
          Or.inl ⟨he, span_fst_all _ _, hv.symm⟩⟩
        rw [← hr, span_append Char.isDigit (c :: cs)]

theorem parse_timestamp_shape (ln : Nat) (s : List Char) (t : TimePoint)
    (h : parse_timestamp ln s = .ok t) :
    ∃ (w1 w2 w3 w4 : List Char) (v1 v2 v3 v4 : Int),
      s = w1 ++ ':' :: (w2 ++ ':' :: (w3 ++ ':' :: w4))
      ∧ int_field w1 v1 ∧ int_field w2 v2 ∧ int_field w3 v3 ∧ int_field w4 v4
      ∧ t = TimePoint.from_components v1 v2 v3 v4 := by
  rw [parse_timestamp_ok] at h
  cases hn1 : number_i64 s with
  | none => simp [parse_timestamp_core, hn1] at h
  | some p1 =>
    obtain ⟨v1, r1⟩ := p1
    simp only [parse_timestamp_core, hn1] at h
    cases hc1 : expect_colon r1 with
    | none => simp [hc1] at h
    | some r2 =>
      simp only [hc1] at h
      cases hn2 : number_i64 r2 with
      | none => simp [hn2] at h
      | some p2 =>
        obtain ⟨v2, r3⟩ := p2
        simp only [hn2] at h
        cases hc2 : expect_colon r3 with
        | none => simp [hc2] at h
        | some r4 =>
          simp only [hc2] at h
          cases hn3 : number_i64 r4 with
          | none => simp [hn3] at h
          | some p3 =>
            obtain ⟨v3, r5⟩ := p3
            simp only [hn3] at h
            cases hc3 : expect_colon r5 with
            | none => simp [hc3] at h
            | some r6 =>
              simp only [hc3] at h
              cases hn4 : number_i64 r6 with
              | none => simp [hn4] at h
              | some p4 =>
                obtain ⟨v4, r7⟩ := p4
                simp only [hn4] at h
                cases r7 with
                | cons x xs => simp at h
                | nil =>
                  simp only [Except.ok.injEq] at h
                  obtain ⟨w1, hw1, hf1⟩ := number_i64_some s v1 r1 hn1
                  obtain ⟨w2, hw2, hf2⟩ := number_i64_some r2 v2 r3 hn2
                  obtain ⟨w3, hw3, hf3⟩ := number_i64_some r4 v3 r5 hn3
                  obtain ⟨w4, hw4, hf4⟩ := number_i64_some r6 v4 [] hn4
                  refine ⟨w1, w2, w3, w4, v1, v2, v3, v4, ?_, hf1, hf2, hf3, hf4, h.symm⟩
                  rw [List.append_nil] at hw4
                  rw [hw1, expect_colon_some r1 r2 hc1, hw2, expect_colon_some r3 r4 hc2,
                    hw3, expect_colon_some r5 r6 hc3, hw4]

theorem parse_timestamp_error_shape (ln : Nat) (s : List Char) (e : ErrorKind)
    (h : parse_timestamp ln s = .error e) :
    ∃ msg, parse_timestamp_core s = .error msg
      ∧ e = .IdxLineParseError ln msg := by
  cases hc : parse_timestamp_core s with
  | ok t => rw [parse_timestamp, hc] at h; simp [Except.mapError] at h
  | error msg =>
    rw [parse_timestamp, hc] at h
    simp only [Except.mapError, Except.error.injEq] at h
    exact ⟨msg, rfl, h.symm⟩

theorem parse_timestamp_error_line (ln : Nat) (s : List Char) :
    (∃ t, parse_timestamp ln s = .ok t)
      ∨ ∃ msg, parse_timestamp ln s = .error (.IdxLineParseError ln msg) := by
  cases hc : parse_timestamp_core s with
  | ok t => exact Or.inl ⟨t, (parse_timestamp_ok ln s t).mpr hc⟩
  | error msg => exact Or.inr ⟨msg, by simp [parse_timestamp, hc, Except.mapError]⟩

theorem ws_char_is_whitespace (c : Char) (h : ws_char c = true) :
    is_whitespace c = true := by
  simp only [ws_char, Bool.or_eq_true, beq_iff_eq] at h
  rcases h with h | h <;> (subst h; decide)

theorem trim_start_append_ws (w : List Char) (l : List Char)
    (hall : ∀ c ∈ w, is_whitespace c = true) :
    trim_start (w ++ l) = trim_start l := by
  induction w with
  | nil => rfl
  | cons c cs ih =>
    have hc := hall c (by simp)
    simp only [List.cons_append, trim_start, List.dropWhile_cons, hc, if_true]
    exact ih fun x hx => hall x (by simp [hx])

theorem trim_start_marker_self (l : List Char) (h : starts_with marker l = true) :
    trim_start l = l := by
  cases l with
  | nil => exact absurd h (by decide)
  | cons c cs =>
    have hc : c = 't' := by
      rw [show marker = 't' :: "imestamp:".toList from rfl] at h
      simp only [starts_with, Bool.and_eq_true, beq_iff_eq] at h
      exact h.1.symm
    subst hc
    simp [trim_start, List.dropWhile_cons, show is_whitespace 't' = false from by decide]

theorem marker_guard_of_grammar (s : List Char)
    (hm : starts_with marker (span ws_char s).2 = true) :
    starts_with marker (trim_start s) = true := by
  have hs : (span ws_char s).1 ++ (span ws_char s).2 = s := span_append _ _
  calc starts_with marker (trim_start s)
      = starts_with marker (trim_start ((span ws_char s).1 ++ (span ws_char s).2)) := by
        rw [hs]
    _ = starts_with marker (trim_start (span ws_char s).2) := by
        rw [trim_start_append_ws _ _
          (fun c hc => ws_char_is_whitespace c (span_fst_all ws_char s c hc))]
    _ = starts_with marker (span ws_char s).2 := by rw [trim_start_marker_self _ hm]
    _ = true := hm

theorem parse_line_marker_error (ln : Nat) (s : List Char) (msg : List Char)
    (hm : starts_with marker (span ws_char s).2 = true)
    (hbad : parse_timestamp_core
        ((span digit_colon (span ws_char ((span ws_char s).2.drop marker.length)).2).1)
      = .error msg) :
    parse_line ln s = .error (.IdxLineParseError ln msg) := by
  have hguard := marker_guard_of_grammar s hm
  have hts : parse_timestamp ln
      ((span digit_colon (span ws_char ((span ws_char s).2.drop marker.length)).2).1)
      = .error (.IdxLineParseError ln msg) := by
    simp [parse_timestamp, hbad, Except.mapError]
  simp only [parse_line]
  rw [if_neg (by simp [hguard]), if_pos hm, hts]

theorem parse_line_error_shape (ln : Nat) (s : List Char) (e : ErrorKind)
    (h : parse_line ln s = .error e) : ∃ msg, e = .IdxLineParseError ln msg := by
  by_cases hg : starts_with marker (trim_start s) = false
  · rw [parse_line, if_pos hg] at h
    simp at h
  · simp only [parse_line] at h
    rw [if_neg hg] at h
    by_cases hm : starts_with marker (span ws_char s).2 = true
    · rw [if_pos hm] at h
      cases hts : parse_timestamp ln
          ((span digit_colon (span ws_char ((span ws_char s).2.drop marker.length)).2).1) with
      | ok t => rw [hts] at h; simp at h
      | error e' =>
        rw [hts] at h
        simp only [Except.error.injEq] at h
        obtain ⟨msg, _, hmsg⟩ := parse_timestamp_error_shape ln _ e' hts
        exact ⟨msg, h ▸ hmsg⟩
    · rw [if_neg hm] at h
      simp only [Except.error.injEq] at h
      exact ⟨err_msg_marker, h.symm⟩

theorem parse_line_total (ln : Nat) (s : List Char) :
    (∃ parts, parse_line ln s = .ok parts)
      ∨ ∃ msg, parse_line ln s = .error (.IdxLineParseError ln msg) := by
  cases hl : parse_line ln s with
  | ok parts => exact Or.inl ⟨parts, rfl⟩
  | error e =>
    obtain ⟨msg, hmsg⟩ := parse_line_error_shape ln s e hl
    exact Or.inr ⟨msg, by rw [hmsg]⟩

theorem parse_lines_loop_error :
    ∀ (lines : List (List Char × List Char)) (n ln : Nat) (pr : List Char × List Char),
      lines[ln]? = some pr →
      (∀ parts, parse_line (n + ln) pr.1 ≠ .ok parts) →
      (∀ (k : Nat) (q : List Char × List Char), k < ln → lines[k]? = some q →
        ∃ parts, parse_line (n + k) q.1 = .ok parts) →
      ∃ msg, parse_lines_loop n lines = .error (.IdxLineParseError (n + ln) msg) := by
  intro lines
  induction lines with
  | nil => intro n ln pr h _ _; simp at h
  | cons hd rest ih =>
    intro n ln pr hidx hfail hprev
    obtain ⟨line, term⟩ := hd
    cases ln with
    | zero =>
      simp only [List.getElem?_cons_zero, Option.some.injEq] at hidx
      subst hidx
      cases hl : parse_line n line with
      | ok parts =>
        exact absurd hl (by simpa using hfail parts)
      | error e =>
        obtain ⟨msg, hmsg⟩ := parse_line_error_shape n line e hl
        refine ⟨msg, ?_⟩
        simp only [parse_lines_loop, hl, hmsg, Nat.add_zero]
    | succ m =>
      simp only [List.getElem?_cons_succ] at hidx
      obtain ⟨parts0, hok0⟩ := hprev 0 (line, term) (Nat.succ_pos m) (by simp)
      have hok0' : parse_line n line = .ok parts0 := by simpa using hok0
      have hfail' : ∀ parts, parse_line ((n + 1) + m) pr.1 ≠ .ok parts := by
        intro parts
        have hx := hfail parts
        have harith : n + (m + 1) = (n + 1) + m := by omega
        rwa [harith] at hx
      have hprev' : ∀ (k : Nat) (q : List Char × List Char), k < m → rest[k]? = some q →
          ∃ parts, parse_line ((n + 1) + k) q.1 = .ok parts := by
        intro k q hk hq
        have hx := hprev (k + 1) q (by omega) (by simpa using hq)
        have harith : n + (k + 1) = (n + 1) + k := by omega
        rwa [harith] at hx
      obtain ⟨msg, hloop⟩ := ih (n + 1) m pr hidx hfail' hprev'
      refine ⟨msg, ?_⟩
      have harith : (n + 1) + m = n + (m + 1) := by omega
      rw [harith] at hloop
      simp only [parse_lines_loop, hok0', hloop]

theorem parse_inner_line_error (i : List Char) (ln : Nat) (pr : List Char × List Char)
    (hidx : (get_lines_non_destructive (split_bom i).2)[ln]? = some pr)
    (hfail : ∀ parts, parse_line ln pr.1 ≠ .ok parts)
    (hprev : ∀ (k : Nat) (q : List Char × List Char), k < ln →
      (get_lines_non_destructive (split_bom i).2)[k]? = some q →
      ∃ parts, parse_line k q.1 = .ok parts) :
    ∃ msg, parse_inner i = .error (.IdxLineParseError ln msg) := by
  have hfail0 : ∀ parts, parse_line (0 + ln) pr.1 ≠ .ok parts := by
    intro parts
    simpa [Nat.zero_add] using hfail parts
  have hprev0 : ∀ (k : Nat) (q : List Char × List Char), k < ln →
      (get_lines_non_destructive (split_bom i).2)[k]? = some q →
      ∃ parts, parse_line (0 + k) q.1 = .ok parts := by
    intro k q hk hq
    simpa [Nat.zero_add] using hprev k q hk hq
  obtain ⟨msg, hloop⟩ := parse_lines_loop_error _ 0 ln pr hidx hfail0 hprev0
  refine ⟨msg, ?_⟩
  rw [Nat.zero_add] at hloop
  simp only [parse_inner, hloop]

/-- C1 (counterexample): serializing the parse result does not always
reproduce the input byte for byte.  The input `timestamp: 0:00:00:000`
parses successfully, but its timestamp token is re-rendered in canonical
zero-padded form, giving back `timestamp: 00:00:00:000`. -/
theorem C1_counterexample :
    (parse_inner "timestamp: 0:00:00:000".toList).map IdxFile.to_data
        = .ok "timestamp: 00:00:00:000".toList
      ∧ "timestamp: 00:00:00:000".toList ≠ "timestamp: 0:00:00:000".toList :=
  ⟨by decide, by decide⟩

/-- C1 (amended): for every input that parses successfully and in which every
timestamp token is canonical — i.e. equal to the text the serializer prints
for its parsed value — serializing the resulting document reproduces the
original input exactly, including the byte-order mark and each line's
line-ending style. -/
theorem C1_round_trip (i : List Char) (f : IdxFile)
    (hok : parse_inner i = .ok f)
    (hcan : ∀ p ∈ get_lines_non_destructive (split_bom i).2, line_canonical p.1 = true) :
    f.to_data = i := by
  simp only [parse_inner] at hok
  cases hp : parse_lines_loop 0 (get_lines_non_destructive (split_bom i).2) with
  | error e => rw [hp] at hok; simp at hok
  | ok parts =>
    rw [hp] at hok
    simp only [Except.ok.injEq] at hok
    subst hok
    simp only [IdxFile.to_data, IdxFile.new, dedup_string_parts]
    rw [(dedupCore_render (.Filler (split_bom i).1 :: parts)).1]
    simp only [render, fn_file_part_to_string]
    rw [parse_lines_loop_render _ 0 parts hp hcan]
    have hj : join_pairs (get_lines_non_destructive (split_bom i).2) = (split_bom i).2 := by
      simpa [get_lines_non_destructive] using get_lines_go_join (split_bom i).2 []
    rw [hj]
    exact split_bom_append i

/-- Witness for C1: a three-line input with a byte-order mark, a `\n`-ended
filler line, a `\r\n`-ended canonical timestamp line and a final filler line
round-trips exactly. -/
theorem C1_witness :
    ∃ f, parse_inner "﻿a\ntimestamp: 00:03:28:308\r\nid: en\n".toList = .ok f
      ∧ f.to_data = "﻿a\ntimestamp: 00:03:28:308\r\nid: en\n".toList := by
  refine ⟨⟨[.Filler "﻿a\ntimestamp: ".toList, .Timestamp ⟨208308⟩,
    .Filler "\r\nid: en\n".toList]⟩, by decide, ?_⟩
  exact C1_round_trip _ _ (by decide) (by decide)

/-- C2 (confirmed): the entry projector turns the document's timestamps
`t_1 .. t_n` into `n` intervals; interval `i` starts at `t_i`, ends at
`t_{i+1}` for `i < n`, and the last interval ends at `t_n` plus one minute
(60 seconds); no timestamps give the empty list. -/
theorem C2_entries (f : IdxFile) :
    (f.v.filterMap part_to_timing = [] → f.get_subtitle_entries = [])
    ∧ f.get_subtitle_entries.length = (f.v.filterMap part_to_timing).length
    ∧ (∀ (i : Nat) (a b : TimePoint), (f.v.filterMap part_to_timing)[i]? = some a →
        (f.v.filterMap part_to_timing)[i + 1]? = some b →
        f.get_subtitle_entries[i]? = some (SubtitleEntry.from (TimeSpan.new a b)))
    ∧ (∀ (i : Nat) (a : TimePoint), (f.v.filterMap part_to_timing)[i]? = some a →
        i + 1 = (f.v.filterMap part_to_timing).length →
        f.get_subtitle_entries[i]?
          = some (SubtitleEntry.from (TimeSpan.new a (a + TimeDelta.from_mins 1))))
    ∧ TimeDelta.from_mins 1 = ⟨60000⟩ := by
  cases hlast : (f.v.filterMap part_to_timing).getLast? with
  | none =>
    have hnil : f.v.filterMap part_to_timing = [] := getLast?_none_nil _ hlast
    have he : f.get_subtitle_entries = [] := by
      simp only [IdxFile.get_subtitle_entries, hlast]
    refine ⟨fun _ => he, ?_, ?_, ?_, rfl⟩
    · rw [he, hnil]
      rfl
    · intro i a b h1 _
      rw [hnil] at h1
      simp at h1
    · intro i a h1 _
      rw [hnil] at h1
      simp at h1
  | some last =>
    have hne : f.v.filterMap part_to_timing ≠ [] := by
      intro h0
      rw [h0] at hlast
      simp at hlast
    have hpos : 1 ≤ (f.v.filterMap part_to_timing).length := by
      have := List.length_pos.mpr hne
      omega
    have he : f.get_subtitle_entries
        = ((f.v.filterMap part_to_timing).zip
            ((f.v.filterMap part_to_timing).drop 1 ++ [last + TimeDelta.from_mins 1])).map
          (fun tt => SubtitleEntry.from (TimeSpan.new tt.1 tt.2)) := by
      simp only [IdxFile.get_subtitle_entries, hlast]
    refine ⟨fun h0 => absurd h0 hne, ?_, ?_, ?_, rfl⟩
    · rw [he]
      simp only [List.length_map, List.length_zip, List.length_append, List.length_drop,
        List.length_singleton]
      omega
    · intro i a b h1 h2
      have hi1 : i + 1 < (f.v.filterMap part_to_timing).length := getElem?_some_lt _ _ _ h2
      have hnext : ((f.v.filterMap part_to_timing).drop 1
          ++ [last + TimeDelta.from_mins 1])[i]? = some b := by
        rw [List.getElem?_append_left (by simp only [List.length_drop]; omega),
          drop_one_getElem?]
        exact h2
      rw [he, List.getElem?_map, zip_getElem? _ _ i a b h1 hnext]
      rfl
    · intro i a h1 hlen
      have hlast_a : (f.v.filterMap part_to_timing).getLast? = some a :=
        getElem?_last _ i a h1 hlen
      have hab : last = a := by
        rw [hlast] at hlast_a
        exact Option.some.inj hlast_a
      subst hab
      have hdl : ((f.v.filterMap part_to_timing).drop 1).length = i := by
        simp only [List.length_drop]
        omega
      have hnext : ((f.v.filterMap part_to_timing).drop 1
          ++ [last + TimeDelta.from_mins 1])[i]? = some (last + TimeDelta.from_mins 1) := by
        rw [List.getElem?_append_right (by omega), hdl]
        simp
      rw [he, List.getElem?_map, zip_getElem? _ _ i last _ h1 hnext]
      rfl

/-- Witness for C2: a document with timestamps at 10 s and 20 s yields the
intervals [10 s, 20 s) and [20 s, 20 s + 1 min). -/
theorem C2_witness :
    (IdxFile.get_subtitle_entries ⟨[.Filler "x".toList, .Timestamp ⟨10000⟩,
        .Timestamp ⟨20000⟩]⟩)[0]?
        = some (SubtitleEntry.from (TimeSpan.new ⟨10000⟩ ⟨20000⟩))
      ∧ (IdxFile.get_subtitle_entries ⟨[.Filler "x".toList, .Timestamp ⟨10000⟩,
        .Timestamp ⟨20000⟩]⟩)[1]?
        = some (SubtitleEntry.from
          (TimeSpan.new ⟨20000⟩ ((⟨20000⟩ : TimePoint) + TimeDelta.from_mins 1))) :=
  ⟨(C2_entries ⟨[.Filler "x".toList, .Timestamp ⟨10000⟩, .Timestamp ⟨20000⟩]⟩).2.2.1
      0 ⟨10000⟩ ⟨20000⟩ (by decide) (by decide),
    (C2_entries ⟨[.Filler "x".toList, .Timestamp ⟨10000⟩, .Timestamp ⟨20000⟩]⟩).2.2.2.1
      1 ⟨20000⟩ (by decide) (by decide)⟩

/-- C3 (code_bug): the update loop reads `ts[count - 1]` before incrementing
`count`, so with one entry for one `Timestamp` part the very first read
underflows `count - 1` (usize) and the call panics, writing nothing — the
vector state is unchanged and the no-panic flag is `false`, contradicting
the claim that the i-th timestamp is overwritten with `entries[i].start` and
the call completes. -/
theorem C3_update_panics :
    IdxFile.update_subtitle_entries ⟨[.Filler "a".toList, .Timestamp ⟨0⟩]⟩
        [⟨⟨⟨5000⟩, ⟨6000⟩⟩⟩]
      = (⟨[.Filler "a".toList, .Timestamp ⟨0⟩]⟩, false) := by decide

/-- C4 (amended): the timestamp codec round-trips every non-negative time
point: decoding the encoded text yields the point back.  (For negative
points the round trip fails; see the counterexample.) -/
theorem C4_round_trip (t : TimePoint) (h : 0 ≤ t.msecs) :
    parse_timestamp 0 (fn_timing_to_string t) = .ok t := by
  obtain ⟨m, rfl⟩ : ∃ m : Nat, t = ⟨(m : Int)⟩ := by
    refine ⟨t.msecs.toNat, ?_⟩
    cases t with
    | mk v =>
      simp only [TimePoint.mk.injEq]
      exact (Int.toNat_of_nonneg h).symm
  exact (parse_timestamp_ok 0 _ _).mpr (decode_encode_nat m)

/-- C4 (counterexample): the negative round trip fails.  Encoding −1500 ms
gives `-00:00:01:500` (sign on the whole magnitude), but decoding parses the
`-` as the sign of the hours field only, so the decoded value is +1500 ms,
not −1500 ms. -/
theorem C4_counterexample :
    parse_timestamp 0 (fn_timing_to_string ⟨-1500⟩) = .ok ⟨1500⟩
      ∧ (⟨1500⟩ : TimePoint) ≠ (⟨-1500⟩ : TimePoint) :=
  ⟨by decide, by decide⟩

/-- Witness for C4: the point 1 h 23 min 45.678 s round-trips. -/
theorem C4_witness :
    0 ≤ (⟨5025678⟩ : TimePoint).msecs
      ∧ parse_timestamp 0 (fn_timing_to_string ⟨5025678⟩) = .ok ⟨5025678⟩ :=
  ⟨by decide, C4_round_trip ⟨5025678⟩ (by decide)⟩

/-- C5 (confirmed): timestamp decoding requires exactly four colon-separated
integer fields consuming the entire token — whenever it succeeds, the token
is precisely four integer fields joined by single colons with nothing left
over — and any decode failure is reported with the given 0-based line index.
A marker line whose token fails to decode makes the line parser fail with
that line's index and the decoder's message, and for any input whose first
failing line is such a line, the whole parse returns an error carrying that
line's 0-based index — no document is produced.  The spec's concrete
instances (`  timestamp: 12:99` as first line and after one good line) fail
exactly as claimed. -/
theorem C5_malformed_timestamp :
    (∀ (ln : Nat) (s : List Char) (t : TimePoint), parse_timestamp ln s = .ok t →
      ∃ (w1 w2 w3 w4 : List Char) (v1 v2 v3 v4 : Int),
        s = w1 ++ ':' :: (w2 ++ ':' :: (w3 ++ ':' :: w4))
        ∧ int_field w1 v1 ∧ int_field w2 v2 ∧ int_field w3 v3 ∧ int_field w4 v4
        ∧ t = TimePoint.from_components v1 v2 v3 v4)
    ∧ (∀ (ln : Nat) (s : List Char),
        (∃ t, parse_timestamp ln s = .ok t)
          ∨ ∃ msg, parse_timestamp ln s = .error (.IdxLineParseError ln msg))
    ∧ (∀ (ln : Nat) (s msg : List Char),
        starts_with marker (span ws_char s).2 = true →
        parse_timestamp_core
            ((span digit_colon (span ws_char ((span ws_char s).2.drop marker.length)).2).1)
          = .error msg →
        parse_line ln s = .error (.IdxLineParseError ln msg))
    ∧ (∀ (i : List Char) (ln : Nat) (pr : List Char × List Char),
        (get_lines_non_destructive (split_bom i).2)[ln]? = some pr →
        (∀ parts, parse_line ln pr.1 ≠ .ok parts) →
        (∀ (k : Nat) (q : List Char × List Char), k < ln →
          (get_lines_non_destructive (split_bom i).2)[k]? = some q →
          ∃ parts, parse_line k q.1 = .ok parts) →
        ∃ msg, parse_inner i = .error (.IdxLineParseError ln msg))
    ∧ parse_timestamp 7 "12:99".toList = .error (.IdxLineParseError 7 err_msg_colon)
    ∧ parse_timestamp 3 "1:2:3:4:5".toList = .error (.IdxLineParseError 3 err_msg_eof)
    ∧ parse_inner "  timestamp: 12:99".toList
        = .error (.IdxLineParseError 0 err_msg_colon)
    ∧ parse_inner "ok line\n  timestamp: 12:99".toList
        = .error (.IdxLineParseError 1 err_msg_colon) :=
  ⟨parse_timestamp_shape, parse_timestamp_error_line, parse_line_marker_error,
    parse_inner_line_error, by decide, by decide, by decide, by decide⟩

/-- Witness for C5: the general propagation statement applied to the
two-line input whose second line carries the bad token `12:99`: the whole
parse fails with line index 1. -/
theorem C5_witness :
    ∃ msg, parse_inner "ok line\n  timestamp: 12:99".toList
      = .error (.IdxLineParseError 1 msg) :=
  C5_malformed_timestamp.2.2.2.1 "ok line\n  timestamp: 12:99".toList 1
    ("  timestamp: 12:99".toList, [])
    (by decide)
    (by
      intro parts hok
      rw [show parse_line 1 "  timestamp: 12:99".toList
          = .error (.IdxLineParseError 1 err_msg_colon) from by decide] at hok
      simp at hok)
    (by
      intro k q hk hq
      have hk0 : k = 0 := by omega
      subst hk0
      have hq' : q = ("ok line".toList, ['\n']) := by
        rw [show (get_lines_non_destructive
            (split_bom "ok line\n  timestamp: 12:99".toList).2)[0]?
          = some ("ok line".toList, ['\n']) from by decide] at hq
        exact (Option.some.inj hq).symm
      subst hq'
      exact ⟨[.Filler "ok line".toList], by decide⟩)

/-- C6 (confirmed): after a successful parse no two adjacent parts are both
`Filler`, and the normalization pass that achieves this preserves the
sequence of `Timestamp` values, leaving them untouched and in place. -/
theorem C6_normalized (i : List Char) (f : IdxFile) (hok : parse_inner i = .ok f) :
    no_adjacent_fillers f.v = true
      ∧ ∀ v : List IdxFilePart,
        (dedup_string_parts v).filterMap part_to_timing = v.filterMap part_to_timing := by
  refine ⟨?_, fun v => (dedupCore_timings v).1⟩
  simp only [parse_inner] at hok
  cases hp : parse_lines_loop 0 (get_lines_non_destructive (split_bom i).2) with
  | error e => rw [hp] at hok; simp at hok
  | ok parts =>
    rw [hp] at hok
    simp only [Except.ok.injEq] at hok
    subst hok
    exact (dedupCore_noAdj (.Filler (split_bom i).1 :: parts)).1

/-- Witness for C6: the parsed three-part document of the C1 witness input
has no adjacent fillers. -/
theorem C6_witness :
    no_adjacent_fillers
        (⟨[.Filler "﻿a\ntimestamp: ".toList, .Timestamp ⟨208308⟩,
          .Filler "\r\nid: en\n".toList]⟩ : IdxFile).v = true :=
  (C6_normalized "﻿a\ntimestamp: 00:03:28:308\r\nid: en\n".toList _ (by decide)).1

/-- C7 (confirmed): a line whose content, after stripping leading
whitespace, does not start with the literal `timestamp:` becomes exactly one
`Filler` holding the whole line content, with no `Timestamp` part. -/
theorem C7_filler_line (line_num : Nat) (s : List Char)
    (h : starts_with marker (trim_start s) = false) :
    parse_line line_num s = .ok [.Filler s] := by
  rw [parse_line, if_pos h]

/-- Witness for C7: the line `abc def` is one filler part. -/
theorem C7_witness :
    starts_with marker (trim_start "abc def".toList) = false
      ∧ parse_line 0 "abc def".toList = .ok [.Filler "abc def".toList] :=
  ⟨by decide, C7_filler_line 0 _ (by decide)⟩

/-- C8 (confirmed): whatever state the update leaves behind (complete, or at
a panic), every part keeps its position and variant, every `Filler` keeps
exactly its text, and only `Timestamp` values can change — nothing is added,
removed, or reordered. -/
theorem C8_update_frame (f : IdxFile) (ts : List SubtitleEntry) :
    List.Forall₂ part_frame f.v (f.update_subtitle_entries ts).1.v :=
  update_loop_frame f.v ts 0

/-- Witness for C8: frame property at a concrete document and entry list. -/
theorem C8_witness :
    List.Forall₂ part_frame
      [.Filler "a".toList, .Timestamp ⟨0⟩]
      ((IdxFile.update_subtitle_entries ⟨[.Filler "a".toList, .Timestamp ⟨0⟩]⟩
        [⟨⟨⟨5000⟩, ⟨6000⟩⟩⟩]).1.v) :=
  C8_update_frame ⟨[.Filler "a".toList, .Timestamp ⟨0⟩]⟩ [⟨⟨⟨5000⟩, ⟨6000⟩⟩⟩]

/-- C9 (counterexample): the hours field is not rendered at minimum width —
it is zero-padded to two digits like minutes and seconds: the zero point
encodes as `00:00:00:000`, not `0:00:00:000`. -/
theorem C9_counterexample :
    fn_timing_to_string ⟨0⟩ = "00:00:00:000".toList
      ∧ fn_timing_to_string ⟨0⟩ ≠ "0:00:00:000".toList :=
  ⟨by decide, by decide⟩

/-- C9 (amended): for every non-negative time point the encoding is four
colon-separated all-digit fields; the hours field is zero-padded to width 2
(and grows beyond 2 digits when needed), minutes and seconds are exactly 2
digits, milliseconds exactly 3; each field's numeric value is the
corresponding component. -/
theorem C9_padding (t : TimePoint) (h : 0 ≤ t.msecs) :
    ∃ f1 f2 f3 f4 : List Char,
      fn_timing_to_string t = f1 ++ ':' :: (f2 ++ ':' :: (f3 ++ ':' :: f4))
      ∧ (∀ c ∈ f1 ++ f2 ++ f3 ++ f4, c.isDigit = true)
      ∧ f1.length = max 2 (natDigits t.hours.toNat).length
      ∧ f2.length = 2 ∧ f3.length = 2 ∧ f4.length = 3
      ∧ digitsToNat f1 = t.hours.toNat
      ∧ digitsToNat f2 = t.mins_comp.toNat
      ∧ digitsToNat f3 = t.secs_comp.toNat
      ∧ digitsToNat f4 = t.msecs_comp.toNat := by
  obtain ⟨m, rfl⟩ : ∃ m : Nat, t = ⟨(m : Int)⟩ := by
    refine ⟨t.msecs.toNat, ?_⟩
    cases t with
    | mk v =>
      simp only [TimePoint.mk.injEq]
      exact (Int.toNat_of_nonneg h).symm
  refine ⟨zero_pad 2 (natDigits (m / 3600000)), zero_pad 2 (natDigits (m / 60000 % 60)),
    zero_pad 2 (natDigits (m / 1000 % 60)), zero_pad 3 (natDigits (m % 1000)),
    encode_coe m, ?_, ?_, ?_, ?_, ?_, ?_, ?_, ?_, ?_⟩
  · intro c hc
    simp only [List.mem_append] at hc
    rcases hc with ((hc | hc) | hc) | hc <;>
      exact zero_pad_all_digits _ _ (natDigits_all_digits _) c hc
  · rw [hours_coe, int_toNat_coe, zero_pad_length]
  · rw [zero_pad_length]
    have := natDigits_len_le2 (m / 60000 % 60) (by omega)
    have := natDigits_len1 0 (by omega)
    omega
  · rw [zero_pad_length]
    have := natDigits_len_le2 (m / 1000 % 60) (by omega)
    omega
  · rw [zero_pad_length]
    have := natDigits_len_le3 (m % 1000) (by omega)
    omega
  · rw [digitsToNat_zero_pad, digitsToNat_natDigits, hours_coe, int_toNat_coe]
  · rw [digitsToNat_zero_pad, digitsToNat_natDigits, mins_comp_coe, int_toNat_coe]
  · rw [digitsToNat_zero_pad, digitsToNat_natDigits, secs_comp_coe, int_toNat_coe]
  · rw [digitsToNat_zero_pad, digitsToNat_natDigits, msecs_comp_coe, int_toNat_coe]

/-- Witness for C9: the field decomposition at 1 h 2 min 15.250 s. -/
theorem C9_witness :
    0 ≤ (⟨3735250⟩ : TimePoint).msecs
      ∧ ∃ f1 f2 f3 f4 : List Char,
        fn_timing_to_string ⟨3735250⟩ = f1 ++ ':' :: (f2 ++ ':' :: (f3 ++ ':' :: f4))
        ∧ (∀ c ∈ f1 ++ f2 ++ f3 ++ f4, c.isDigit = true)
        ∧ f1.length = max 2 (natDigits (⟨3735250⟩ : TimePoint).hours.toNat).length
        ∧ f2.length = 2 ∧ f3.length = 2 ∧ f4.length = 3
        ∧ digitsToNat f1 = (⟨3735250⟩ : TimePoint).hours.toNat
        ∧ digitsToNat f2 = (⟨3735250⟩ : TimePoint).mins_comp.toNat
        ∧ digitsToNat f3 = (⟨3735250⟩ : TimePoint).secs_comp.toNat
        ∧ digitsToNat f4 = (⟨3735250⟩ : TimePoint).msecs_comp.toNat :=
  ⟨by decide, C9_padding ⟨3735250⟩ (by decide)⟩

/-- C10 (confirmed): encoding a negative time point prints a leading `-`
followed by the encoding of its absolute value (no per-field signs); in
particular −1500 ms encodes as `-00:00:01:500`. -/
theorem C10_negative_encoding :
    (∀ t : TimePoint, t.msecs < 0 → fn_timing_to_string t = '-' :: fn_timing_to_string (-t))
      ∧ fn_timing_to_string ⟨-1500⟩ = "-00:00:01:500".toList := by
  constructor
  · intro t h
    have hneg : ¬((-t).msecs < 0) := by
      have he : (-t).msecs = -t.msecs := rfl
      omega
    simp [fn_timing_to_string, h, hneg]
  · decide

/-- Witness for C10: the sign-splitting equation at −1500 ms. -/
theorem C10_witness :
    (⟨-1500⟩ : TimePoint).msecs < 0
      ∧ fn_timing_to_string ⟨-1500⟩ = '-' :: fn_timing_to_string (-(⟨-1500⟩ : TimePoint)) :=
  ⟨by decide, C10_negative_encoding.1 ⟨-1500⟩ (by decide)⟩

end Subparse
